import Mathlib

/-!
Verification development for the SchemaBridge converter service.

This file gives a shallow embedding of the conversion orchestration and
output-assembly engine found in `services/converter.ts`: export detection,
sandbox lifecycle (as an explicit event trace over an abstract filesystem
state), per-export conversion dispatch, import and enum merging, error
formatting, and final assembly.  JavaScript regular expressions are modelled
by hand-written character scanners over `List Char`; JS `\w` and `\s` are
modelled with ASCII word/whitespace characters; JS `Map`/`Set` (insertion
ordered) are modelled by association lists / lists with membership tests.
The external delegate library (`loadZodSchema`, `convertZodToPydantic`,
`convertZodToTypescript`) is opaque in the source and is modelled as an
environment-supplied function from the export name to either a generated
code text or a thrown error message.
-/

set_option autoImplicit false
set_option maxRecDepth 100000

namespace SBPG

/-- Target representation: `'pydantic'` (class-based dialect A) or
`'typescript'` (structural dialect B). -/
inductive Lang where
  | pydantic
  | typescript
deriving DecidableEq

/-- JS `\w` character class: ASCII letters, digits, underscore. -/
def isWordChar (c : Char) : Bool := c.isAlphanum || c == '_'

/-- JS `\s` character class, restricted to ASCII whitespace. -/
def isSpaceChar (c : Char) : Bool := c.isWhitespace

/-- `getCommentPrefix` from converter.ts (renamed): `'#'` for pydantic,
`'//'` for typescript. -/
def commentMarker : Lang → String
  | .pydantic => "#"
  | .typescript => "//"

/-- Expect the literal `pat` at the head of `l`; return the remainder. -/
def dropLit : List Char → List Char → Option (List Char)
  | [], l => some l
  | _ :: _, [] => none
  | p :: ps, c :: cs => if c = p then dropLit ps cs else none

/-- `leadsWith pat l` holds when `pat` is an initial segment of `l`. -/
def leadsWith : List Char → List Char → Bool
  | [], _ => true
  | _ :: _, [] => false
  | p :: ps, c :: cs => p = c && leadsWith ps cs

/-- Does `pat` occur contiguously anywhere in `l`? -/
def occursIn (pat : List Char) : List Char → Bool
  | [] => pat.isEmpty
  | c :: cs => leadsWith pat (c :: cs) || occursIn pat cs

/-- String-level substring test used to state absence/presence of paths and
aliases in user-visible strings. -/
def strContainsSub (s pat : String) : Bool := occursIn pat.toList s.toList

/-- Count of leading whitespace characters:
`line.length - line.trimStart().length` in the source. -/
def indentOf (line : String) : Nat := (line.toList.takeWhile isSpaceChar).length

/-- Bool membership test on a list of strings (models JS `Set`/`includes`). -/
def memStr (s : String) : List String → Bool
  | [] => false
  | x :: xs => if s = x then true else memStr s xs

/-- Trim leading and trailing whitespace (JS `String.prototype.trim`,
restricted to ASCII whitespace).  Defined on the character list so that it
evaluates by kernel reduction. -/
def trimChars (l : List Char) : List Char :=
  ((l.dropWhile isSpaceChar).reverse.dropWhile isSpaceChar).reverse

def strTrim (s : String) : String := String.mk (trimChars s.toList)

/-- `s.startsWith pat` (JS `String.prototype.startsWith`). -/
def startsWithStr (s pat : String) : Bool := leadsWith pat.toList s.toList

/-- Split on `'\n'` (JS `String.prototype.split('\n')`): always at least one
piece, empty pieces kept. -/
def splitNlChars : List Char → List (List Char)
  | [] => [[]]
  | c :: cs =>
    match splitNlChars cs with
    | [] => [[]]
    | h :: t => if c = '\n' then [] :: h :: t else (c :: h) :: t

def splitLines (s : String) : List String := (splitNlChars s.toList).map String.mk

/-! ## Export detection (`detectAllZodSchemas`)

The source scans with two global regexes:
`/export\s+const\s+(\w+)\s*=\s*z\./g` and `/const\s+(\w+)\s*=\s*z\./g`.
The scanners below replicate the regex engine behaviour: literal tokens,
`\s+`/`\s*` runs, a maximal `\w+` capture (no useful backtracking exists
for these patterns since the neighbouring tokens are outside `\w`). -/

/-- Match `const\s+(\w+)\s*=\s*z\.` at the head of `l`; return the captured
name and the remainder after the match. -/
def matchConstZod (l : List Char) : Option (List Char × List Char) :=
  match dropLit "const".toList l with
  | none => none
  | some r =>
    let ws := r.takeWhile isSpaceChar
    if ws.isEmpty then none else
    let r1 := r.dropWhile isSpaceChar
    let name := r1.takeWhile isWordChar
    if name.isEmpty then none else
    let r2 := (r1.dropWhile isWordChar).dropWhile isSpaceChar
    match r2 with
    | '=' :: r3 =>
      match r3.dropWhile isSpaceChar with
      | 'z' :: '.' :: r4 => some (name, r4)
      | _ => none
    | _ => none

/-- Match `export\s+const\s+(\w+)\s*=\s*z\.` at the head of `l`. -/
def matchExportConstZod (l : List Char) : Option (List Char × List Char) :=
  match dropLit "export".toList l with
  | none => none
  | some r =>
    let ws := r.takeWhile isSpaceChar
    if ws.isEmpty then none else
    matchConstZod (r.dropWhile isSpaceChar)

/-- Fuelled global scan, replicating `String.matchAll`: find the leftmost
match, record its capture, continue after the match end.  Every step either
consumes the whole match (at least one character) or advances one character,
so fuel `l.length` is always sufficient. -/
def scanAllAux (f : List Char → Option (List Char × List Char)) :
    Nat → List Char → List String
  | 0, _ => []
  | _ + 1, [] => []
  | n + 1, c :: cs =>
    match f (c :: cs) with
    | some (name, r) => String.mk name :: scanAllAux f n r
    | none => scanAllAux f n cs

/-- Global scan over a character list. -/
def scanAll (f : List Char → Option (List Char × List Char)) (l : List Char) :
    List String :=
  scanAllAux f l.length l

/-- The catalog returned by `detectAllZodSchemas`. -/
structure ExportCatalog where
  exported : List String
  nonExported : List String
deriving DecidableEq

/-- `detectAllZodSchemas` from converter.ts: two independent lexical scans;
`nonExported` is all bindings found minus the exported ones, order
preserved. -/
def detectAllZodSchemas (schemaCode : String) : ExportCatalog :=
  let exported := scanAll matchExportConstZod schemaCode.toList
  let all := scanAll matchConstZod schemaCode.toList
  let nonExported := all.filter (fun name => !(memStr name exported))
  { exported := exported, nonExported := nonExported }

/-! ## Error formatter (`formatConversionError`) -/

/-- Match `z\.(\w+) is not a function` at the head of `l`, returning the
captured method name. -/
def matchNotFunctionAt (l : List Char) : Option (List Char) :=
  match l with
  | 'z' :: '.' :: r =>
    let w := r.takeWhile isWordChar
    if w.isEmpty then none else
    match dropLit " is not a function".toList (r.dropWhile isWordChar) with
    | some _ => some w
    | none => none
  | _ => none

/-- Leftmost match of `/z\.(\w+) is not a function/`. -/
def findNotFunction : List Char → Option (List Char)
  | [] => none
  | c :: cs =>
    match matchNotFunctionAt (c :: cs) with
    | some w => some w
    | none => findNotFunction cs

/-- Match `Failed to import schema module "([^"]+)": (.+)` at the head of
`l`, returning the two captures (the quoted path, the underlying cause up to
the end of the line). -/
def matchImportFailAt (l : List Char) : Option (List Char × List Char) :=
  match dropLit "Failed to import schema module \"".toList l with
  | none => none
  | some r =>
    let p := r.takeWhile (fun c => !(c == '"'))
    if p.isEmpty then none else
    match dropLit "\": ".toList (r.dropWhile (fun c => !(c == '"'))) with
    | none => none
    | some r2 =>
      let cause := r2.takeWhile (fun c => !(c == '\n') && !(c == '\r'))
      if cause.isEmpty then none else some (p, cause)

/-- Leftmost match of the module-import-failure pattern. -/
def findImportFail : List Char → Option (List Char × List Char)
  | [] => none
  | c :: cs =>
    match matchImportFailAt (c :: cs) with
    | some pc => some pc
    | none => findImportFail cs

/-- Greedy match length for `/\/var\/folders\/[^\s]+\/schema\.(ts|mjs)/` at
the head of `l`: after the literal `/var/folders/` the longest non-space
segment ending in `/schema.ts` or `/schema.mjs` is chosen. -/
def vfBest (run : List Char) : Nat → Option Nat
  | 0 => none
  | k + 1 =>
    let cand := run.take (k + 1)
    if (k + 1 ≥ 11 && leadsWith "/schema.ts".toList (cand.drop (k + 1 - 10))) ||
       (k + 1 ≥ 12 && leadsWith "/schema.mjs".toList (cand.drop (k + 1 - 11))) then
      some (k + 1)
    else vfBest run k

/-- Total consumed length of a `/var/folders/.../schema.(ts|mjs)` match
starting at the head of `l`, if any. -/
def vfMatchLen (l : List Char) : Option Nat :=
  match dropLit "/var/folders/".toList l with
  | none => none
  | some r =>
    let run := r.takeWhile (fun c => !(isSpaceChar c))
    match vfBest run run.length with
    | some k => some (13 + k)
    | none => none

/-- Global replace of the temp-path pattern by `schema file`
(`.replace(/\/var\/folders\/[^\s]+\/schema\.(ts|mjs)/g, 'schema file')`).
Fuelled: every step consumes at least one character. -/
def replaceVarFoldersAux : Nat → List Char → List Char
  | 0, l => l
  | _ + 1, [] => []
  | n + 1, c :: cs =>
    match vfMatchLen (c :: cs) with
    | some k => "schema file".toList ++ replaceVarFoldersAux n ((c :: cs).drop k)
    | none => c :: replaceVarFoldersAux n cs

def replaceVarFolders (l : List Char) : List Char :=
  replaceVarFoldersAux l.length l

/-- Does the temp-path pattern match at any position? -/
def vfOccurs : List Char → Bool
  | [] => false
  | c :: cs => (vfMatchLen (c :: cs)).isSome || vfOccurs cs

/-- Global replace of the literal `import_zod.` by the empty string
(`.replace(/import_zod\./g, '')`). -/
def replaceImportZodAux : Nat → List Char → List Char
  | 0, l => l
  | _ + 1, [] => []
  | n + 1, c :: cs =>
    match dropLit "import_zod.".toList (c :: cs) with
    | some r => replaceImportZodAux n r
    | none => c :: replaceImportZodAux n cs

def replaceImportZod (l : List Char) : List Char :=
  replaceImportZodAux l.length l

/-- The pattern-3 cleanup of `formatConversionError`: strip
`/var/folders/...schema.(ts|mjs)` temp paths, then the `import_zod.`
alias. -/
def cleanGenericError (msg : String) : String :=
  String.mk (replaceImportZod (replaceVarFolders msg.toList))

/-- Text of the diagnostic after the comment marker (every branch of the
source prepends `${commentPrefix} `).  First match wins among the three
patterns. -/
def formatDiagnosticCore (exportName : String) (errorMessage : String) : String :=
  match findNotFunction errorMessage.toList with
  | some method =>
    " Invalid Zod method 'z." ++ String.mk method ++ "()' in schema '" ++
      exportName ++
      "'. This method may not exist in the selected Zod version. Check the Zod documentation for valid methods."
  | none =>
    match findImportFail errorMessage.toList with
    | some pc =>
      " Failed to load schema '" ++ exportName ++ "': " ++ String.mk pc.2
    | none =>
      " Error in schema '" ++ exportName ++ "': " ++ cleanGenericError errorMessage

/-- `formatConversionError` from converter.ts.  The source receives a thrown
`unknown` and extracts `error.message`; the embedding takes the message
string directly. -/
def formatConversionError (exportName : String) (errorMessage : String)
    (language : Lang) : String :=
  commentMarker language ++ formatDiagnosticCore exportName errorMessage

/-! ## Output splitter (`extractPythonImports` / `extractTypeScriptImports`) -/

/-- Result of splitting a binding's generated code. -/
structure SplitOut where
  imports : List String
  body : String
deriving DecidableEq

/-- One step of the import scan: while `inImports` is set and the trimmed
line matches the dialect's import syntax, collect it; the first other line
clears `inImports` permanently and everything from there on is body. -/
def importStep (isImportLine : String → Bool)
    (acc : List String × List String × Bool) (line : String) :
    List String × List String × Bool :=
  if acc.2.2 && isImportLine (strTrim line) then
    (acc.1 ++ [line], acc.2.1, acc.2.2)
  else
    (acc.1, acc.2.1 ++ [line], false)

/-- Python import-line test: trimmed line starts with `from ` or
`import `. -/
def isPyImportLine (trimmed : String) : Bool :=
  startsWithStr trimmed "from " || startsWithStr trimmed "import "

/-- TypeScript import-line test: trimmed line starts with `import `. -/
def isTsImportLine (trimmed : String) : Bool :=
  startsWithStr trimmed "import "

/-- `extractPythonImports` from converter.ts. -/
def extractPythonImports (output : String) : SplitOut :=
  let r := (splitLines output).foldl (importStep isPyImportLine) ([], [], true)
  { imports := r.1, body := strTrim (String.intercalate "\n" r.2.1) }

/-- `extractTypeScriptImports` from converter.ts. -/
def extractTypeScriptImports (output : String) : SplitOut :=
  let r := (splitLines output).foldl (importStep isTsImportLine) ([], [], true)
  { imports := r.1, body := strTrim (String.intercalate "\n" r.2.1) }

def extractImportsFor : Lang → String → SplitOut
  | .pydantic => extractPythonImports
  | .typescript => extractTypeScriptImports

/-! ## Import merger -/

/-- Match `^from\s+(\S+)\s+import\s+(.+)$` against a trimmed line,
returning the module and the raw items text. -/
def pyFromMatch (t : String) : Option (String × String) :=
  match dropLit "from".toList t.toList with
  | none => none
  | some r =>
    if (r.takeWhile isSpaceChar).isEmpty then none else
    let r1 := r.dropWhile isSpaceChar
    let module := r1.takeWhile (fun c => !(isSpaceChar c))
    if module.isEmpty then none else
    let r2 := r1.dropWhile (fun c => !(isSpaceChar c))
    if (r2.takeWhile isSpaceChar).isEmpty then none else
    match dropLit "import".toList (r2.dropWhile isSpaceChar) with
    | none => none
    | some r3 =>
      if (r3.takeWhile isSpaceChar).isEmpty then none else
      let items := r3.dropWhile isSpaceChar
      if items.isEmpty then none else some (String.mk module, String.mk items)

/-- Match `^import\s+(.+)$` against a trimmed line. -/
def pyImportOnlyMatch (t : String) : Bool :=
  match dropLit "import".toList t.toList with
  | none => false
  | some r =>
    !(r.takeWhile isSpaceChar).isEmpty && !(r.dropWhile isSpaceChar).isEmpty

/-- Add an item to a module's item set (JS `Set.add`: no-op if present,
else appended, insertion order kept). -/
def addItem (items : List String) (it : String) : List String :=
  if memStr it items then items else items ++ [it]

def addItems (items newItems : List String) : List String :=
  newItems.foldl addItem items

/-- Update the by-module map with a batch of items for `module`
(JS `Map`: existing key updated in place, new key appended). -/
def updateModule : List (String × List String) → String → List String →
    List (String × List String)
  | [], module, its => [(module, addItems [] its)]
  | (m, is) :: rest, module, its =>
    if module = m then (m, addItems is its) :: rest
    else (m, is) :: updateModule rest module its

/-- Lexicographic comparison on code points, modelling the JS default
`Array.sort` comparator (identical on ASCII). -/
def lexLe : List Char → List Char → Bool
  | [], _ => true
  | _ :: _, [] => false
  | a :: as, b :: bs =>
    if a.val < b.val then true
    else if b.val < a.val then false
    else lexLe as bs

def insertSorted (x : String) : List String → List String
  | [] => [x]
  | y :: ys => if lexLe x.toList y.toList then x :: y :: ys else y :: insertSorted x ys

/-- Sort a list of strings (models `Array.sort()` on deduplicated keys). -/
def sortStr (l : List String) : List String := l.foldr insertSorted []

/-- One line of `mergePythonImports`'s accumulation pass. -/
def pyMergeStep (acc : List (String × List String) × List String)
    (importLine : String) : List (String × List String) × List String :=
  let trimmed := strTrim importLine
  match pyFromMatch trimmed with
  | some mi =>
    (updateModule acc.1 mi.1 ((mi.2.splitOn ",").map strTrim), acc.2)
  | none =>
    if pyImportOnlyMatch trimmed then
      (acc.1, if memStr trimmed acc.2 then acc.2 else acc.2 ++ [trimmed])
    else acc

/-- `mergePythonImports` from converter.ts: group `from X import Y` lines by
module, union the items, emit modules and items sorted; standalone
`import X` lines are deduplicated verbatim, sorted, and appended. -/
def mergePythonImports (importArrays : List (List String)) : List String :=
  let acc := importArrays.foldl (fun a imports => imports.foldl pyMergeStep a) ([], [])
  let sortedModules := sortStr (acc.1.map Prod.fst)
  let grouped := sortedModules.foldl (fun out module =>
    let items := sortStr ((acc.1.lookup module).getD [])
    if items.length > 0 then
      out ++ ["from " ++ module ++ " import " ++ String.intercalate ", " items]
    else out) []
  grouped ++ sortStr acc.2

/-- One line of `mergeTypeScriptImports`: deduplicate on the trimmed text,
keep the original line of the first occurrence. -/
def tsImportStep (acc : List String × List String) (importLine : String) :
    List String × List String :=
  if memStr (strTrim importLine) acc.1 then acc
  else (acc.1 ++ [strTrim importLine], acc.2 ++ [importLine])

/-- `mergeTypeScriptImports` from converter.ts. -/
def mergeTypeScriptImports (importArrays : List (List String)) : List String :=
  (importArrays.foldl (fun a imports => imports.foldl tsImportStep a) ([], [])).2

/-- `mergeImports` dispatch. -/
def mergeImports (importArrays : List (List String)) : Lang → List String
  | .pydantic => mergePythonImports importArrays
  | .typescript => mergeTypeScriptImports importArrays

/-! ## Enum registry (shared association-list machinery) -/

/-- First-match lookup in an association list (JS `Map.get`). -/
def alookup (k : String) : List (String × String) → Option String
  | [] => none
  | (s, d) :: rest => if k = s then some d else alookup k rest

/-- `if (!map.has(sig)) map.set(sig, def)`: insert at the end only when the
key is absent. -/
def insertAbsent (m : List (String × String)) (e : String × String) :
    List (String × String) :=
  if (alookup e.1 m).isSome then m else m ++ [e]

/-- The cross-binding enum merge loop of `convertZodSchema` (lines 637-642):
per-binding entries are folded into the global registry in scan order,
first signature wins. -/
def mergeEnumLists (ms : List (List (String × String))) : List (String × String) :=
  ms.foldl (fun m entries => entries.foldl insertAbsent m) []

/-! ## Enum extractors -/

/-- `sig += ','` when nonempty, then `sig += value`. -/
def sigStep (s v : String) : String := if s = "" then v else s ++ "," ++ v

/-- Flush a candidate block into the registry: only blocks with a nonempty
value signature are recorded (`if (currentEnum !== null && enumSignature)`). -/
def flushSig (m : List (String × String)) (sig : String) (lines : List String) :
    List (String × String) :=
  if sig = "" then m else insertAbsent m (sig, String.intercalate "\n" lines)

/-- Match `^class\s+(\w+Enum)\(str,\s*Enum\):` against a trimmed line. -/
def isPyEnumHeader (t : String) : Bool :=
  match dropLit "class".toList t.toList with
  | none => false
  | some r =>
    if (r.takeWhile isSpaceChar).isEmpty then false else
    let r1 := r.dropWhile isSpaceChar
    let w := r1.takeWhile isWordChar
    if w.length < 5 || !(leadsWith "Enum".toList (w.drop (w.length - 4))) then false
    else
      match dropLit "(str,".toList (r1.dropWhile isWordChar) with
      | none => false
      | some r2 => (dropLit "Enum):".toList (r2.dropWhile isSpaceChar)).isSome

/-- Match `^\w+\s*=\s*"` against a trimmed line (the stay-in-block
assignment form of the Python extractor). -/
def pyAssignHead (t : String) : Bool :=
  let l := t.toList
  let w := l.takeWhile isWordChar
  if w.isEmpty then false else
  match (l.dropWhile isWordChar).dropWhile isSpaceChar with
  | '=' :: r2 =>
    match r2.dropWhile isSpaceChar with
    | '"' :: _ => true
    | _ => false
  | _ => false

/-- Match `^(\w+)\s*=\s*"([^"]+)"` against a trimmed line, returning the
literal value (group 2). -/
def pyValueOf (t : String) : Option String :=
  let l := t.toList
  let w := l.takeWhile isWordChar
  if w.isEmpty then none else
  match (l.dropWhile isWordChar).dropWhile isSpaceChar with
  | '=' :: r2 =>
    match r2.dropWhile isSpaceChar with
    | '"' :: r3 =>
      let v := r3.takeWhile (fun c => !(c == '"'))
      if v.isEmpty then none else
      match r3.dropWhile (fun c => !(c == '"')) with
      | '"' :: _ => some (String.mk v)
      | _ => none
    | _ => none
  | _ => none

/-- Match `^enum\s+(\w+)\s*\{` against a trimmed line. -/
def isTsEnumHeader (t : String) : Bool :=
  match dropLit "enum".toList t.toList with
  | none => false
  | some r =>
    if (r.takeWhile isSpaceChar).isEmpty then false else
    let r1 := r.dropWhile isSpaceChar
    let w := r1.takeWhile isWordChar
    if w.isEmpty then false else
    match (r1.dropWhile isWordChar).dropWhile isSpaceChar with
    | '\x7b' :: _ => true
    | _ => false

/-- TypeScript literal-value assignment
(`/^\s*(\w+)\s*=\s*"([^"]+)"/` applied to the trimmed line). -/
def tsValueOf (t : String) : Option String := pyValueOf t

/-- In-progress Python enum block: collected lines, the header's
indentation, and the value signature so far. -/
structure PyBlock where
  lines : List String
  indent : Nat
  sig : String
deriving DecidableEq

structure PyState where
  cur : Option PyBlock
  body : List String
  map : List (String × String)
deriving DecidableEq

/-- One line of the `extractPythonEnums` scan, mirroring the source loop:
the header pattern is checked first (closing any open block); inside a block
a non-blank line at indentation ≤ the header's that is not an assignment
form closes the block and belongs to the body; every other line is added to
the block. -/
def pyStep (st : PyState) (line : String) : PyState :=
  let trimmed := strTrim line
  let currentIndent := indentOf line
  if isPyEnumHeader trimmed then
    { cur := some { lines := [line], indent := currentIndent, sig := "" }
      body := st.body
      map := match st.cur with
             | some blk => flushSig st.map blk.sig blk.lines
             | none => st.map }
  else
    match st.cur with
    | some blk =>
      if trimmed ≠ "" ∧ currentIndent ≤ blk.indent ∧ pyAssignHead trimmed = false then
        { cur := none, body := st.body ++ [line], map := flushSig st.map blk.sig blk.lines }
      else
        { cur := some { lines := blk.lines ++ [line], indent := blk.indent,
                        sig := match pyValueOf trimmed with
                               | some v => sigStep blk.sig v
                               | none => blk.sig }
          body := st.body, map := st.map }
    | none => { cur := none, body := st.body ++ [line], map := st.map }

/-- End-of-input flush (`if (currentEnum !== null && enumSignature)`),
returning the registry and body lines. -/
def pyFinish (st : PyState) : List (String × String) × List String :=
  (match st.cur with
   | some blk => flushSig st.map blk.sig blk.lines
   | none => st.map, st.body)

/-- Lines-level core of `extractPythonEnums`. -/
def extractPythonEnumsLines (lines : List String) :
    List (String × String) × List String :=
  pyFinish (lines.foldl pyStep { cur := none, body := [], map := [] })

/-- Extraction result for one binding body. -/
structure EnumOut where
  enums : List (String × String)
  bodyWithoutEnums : String
deriving DecidableEq

/-- `extractPythonEnums` from converter.ts. -/
def extractPythonEnums (body : String) : EnumOut :=
  let r := extractPythonEnumsLines (splitLines body)
  { enums := r.1, bodyWithoutEnums := strTrim (String.intercalate "\n" r.2) }

/-- The block-continuation condition of the Python extractor, as the code
implements it: a line stays in the open block iff it is blank, or strictly
deeper indented than the header, or matches the `\w+\s*=\s*"` assignment
form (at any indentation). -/
def pyContinues (headerIndent : Nat) (line : String) : Bool :=
  (strTrim line = "") || (headerIndent < indentOf line) || pyAssignHead (strTrim line)

/-- In-progress TypeScript enum block. -/
structure TsBlock where
  lines : List String
  sig : String
deriving DecidableEq

structure TsState where
  cur : Option TsBlock
  body : List String
  map : List (String × String)
deriving DecidableEq

/-- One line of the `extractTypeScriptEnums` scan: the header pattern is
checked first; inside a block every line is collected, and a line whose
trimmed text is `}` closes the block (the closer stays in the block, not the
body). -/
def tsStep (st : TsState) (line : String) : TsState :=
  let trimmed := strTrim line
  if isTsEnumHeader trimmed then
    { cur := some { lines := [line], sig := "" }
      body := st.body
      map := match st.cur with
             | some blk => flushSig st.map blk.sig blk.lines
             | none => st.map }
  else
    match st.cur with
    | some blk =>
      if trimmed = "\x7d" then
        { cur := none, body := st.body,
          map := flushSig st.map blk.sig (blk.lines ++ [line]) }
      else
        { cur := some { lines := blk.lines ++ [line],
                        sig := match tsValueOf trimmed with
                               | some v => sigStep blk.sig v
                               | none => blk.sig }
          body := st.body, map := st.map }
    | none => { cur := none, body := st.body ++ [line], map := st.map }

def tsFinish (st : TsState) : List (String × String) × List String :=
  (match st.cur with
   | some blk => flushSig st.map blk.sig blk.lines
   | none => st.map, st.body)

/-- Lines-level core of `extractTypeScriptEnums`. -/
def extractTypeScriptEnumsLines (lines : List String) :
    List (String × String) × List String :=
  tsFinish (lines.foldl tsStep { cur := none, body := [], map := [] })

/-- `extractTypeScriptEnums` from converter.ts. -/
def extractTypeScriptEnums (body : String) : EnumOut :=
  let r := extractTypeScriptEnumsLines (splitLines body)
  { enums := r.1, bodyWithoutEnums := strTrim (String.intercalate "\n" r.2) }

def extractEnumsFor : Lang → String → EnumOut
  | .pydantic => extractPythonEnums
  | .typescript => extractTypeScriptEnums

/-! ## Conversion pipeline (`convertZodSchema`)

The sandbox filesystem effects are modelled as an explicit event trace and a
final directory-existence flag.  The environment supplies: whether the
requested Zod version is installed (`existsSync(zodVersionPath)`), the
module root (`findNodeModulesRoot()`), the delegate's behaviour
(`loadZodSchema({file, exportName})` followed by the representation
generator, combined into one deterministic function of the sandbox module
*file path* and the export name, returning generated code text or a thrown
error message — the source passes the request-unique `tempFile` to
`loadZodSchema`, so its error messages may embed that path), whether the
transpile-and-`writeFile` step throws (its message, a function of the file
path, is returned by the outer catch as `{error: err.message}`), and
whether the `rm(tempDir, {recursive, force})` cleanup succeeds.  The
request-unique temp directory suffix (`Date.now()`/`Math.random()` in the
source) is abstracted by a `seed` string. -/

structure Env where
  delegate : String → String → Except String String
  zodInstalled : Bool
  moduleRoot : String
  writeFails : Option (String → String)
  rmOk : Bool

/-- Filesystem / delegate events, in the order they occur. -/
inductive FsEvent where
  | mkdirTemp (dir : String)
  | mkdirNodeModules
  | symlinkZod
  | writeSchema
  | delegateCall (name : String)
  | rmTemp
deriving DecidableEq

/-- `join(tmpdir(), 'sb-playground-...')` with the unique suffix abstracted
by `seed`. -/
def tempDirNameOf (seed : String) : String := "/tmp/sb-playground-" ++ seed

/-- `join(tempDir, 'schema.mjs')`: the sandbox module file passed to
`loadZodSchema`. -/
def tempFileOf (tempDir : String) : String := tempDir ++ "/schema.mjs"

/-- `join(moduleRoot, 'node_modules', 'zod-v' + zodVersion)`. -/
def zodVersionPath (moduleRoot ver : String) : String :=
  moduleRoot ++ "/node_modules/zod-v" ++ ver

def noExportsMsg : String :=
  "No Zod schema exports found. Make sure to export your schemas with: export const schemaName = z.object(...)"

def tooManyMsg (n : Nat) : String :=
  "Too many schema exports. Maximum 10 schemas allowed, found " ++ toString n ++ "."

def zodMissingMsg (ver path : String) : String :=
  "Zod v" ++ ver ++ " is not installed at " ++ path

instance : DecidableEq (Except String String) := fun a b =>
  match a, b with
  | .ok x, .ok y =>
    if h : x = y then .isTrue (by rw [h]) else .isFalse (by intro hc; cases hc; exact h rfl)
  | .error x, .error y =>
    if h : x = y then .isTrue (by rw [h]) else .isFalse (by intro hc; cases hc; exact h rfl)
  | .ok _, .error _ => .isFalse (by intro hc; cases hc)
  | .error _, .ok _ => .isFalse (by intro hc; cases hc)

/-- Accumulator of the per-export loop: `allImports`, `allEnums`,
`bodyOutputs`. -/
structure LoopAcc where
  imports : List (List String)
  enums : List (String × String)
  bodies : List String
deriving DecidableEq

/-- One iteration of the per-export loop: load + convert through the
delegate; on success split imports, extract enums and merge them into the
global registry; on failure push the formatted diagnostic as this binding's
body and an empty import list, and continue. -/
def loopStep (delegate : String → Except String String) (lang : Lang)
    (acc : LoopAcc) (exportName : String) : LoopAcc :=
  match delegate exportName with
  | .ok output =>
    let sp := extractImportsFor lang output
    let eo := extractEnumsFor lang sp.body
    { imports := acc.imports ++ [sp.imports]
      enums := eo.enums.foldl insertAbsent acc.enums
      bodies := acc.bodies ++ [eo.bodyWithoutEnums] }
  | .error msg =>
    { imports := acc.imports ++ [[]]
      enums := acc.enums
      bodies := acc.bodies ++ [formatConversionError exportName msg lang] }

/-- The whole per-export loop of `convertZodSchema`. -/
def convertLoop (delegate : String → Except String String) (lang : Lang)
    (names : List String) : LoopAcc :=
  names.foldl (loopStep delegate lang) { imports := [], enums := [], bodies := [] }

/-- The body slot a single export contributes, as a function of the
delegate's outcome for it. -/
def slotBody (delegate : String → Except String String) (lang : Lang)
    (name : String) : String :=
  match delegate name with
  | .ok output => (extractEnumsFor lang (extractImportsFor lang output).body).bodyWithoutEnums
  | .error msg => formatConversionError name msg lang

/-- The enum entries a single export contributes. -/
def slotEnums (delegate : String → Except String String) (lang : Lang)
    (name : String) : List (String × String) :=
  match delegate name with
  | .ok output => (extractEnumsFor lang (extractImportsFor lang output).body).enums
  | .error _ => []

/-- The trailing unhandled-schemas comment block. -/
def unhandledComment (lang : Lang) : List String → String
  | [] => ""
  | h :: t =>
    let p := commentMarker lang
    "\n\n" ++ p ++ " Note: The following Zod schemas were detected but not converted because they are not exported:\n" ++
      p ++ " " ++ String.intercalate ", " (h :: t) ++ "\n" ++
      p ++ " To convert them, add 'export' before their declaration (e.g., export const " ++ h ++ " = z....)"

/-- Final assembly: merged imports, a blank-line spacer only when imports
are followed by further content, deduplicated enum definitions, per-binding
bodies in scan order, and the unhandled-schemas notice. -/
def assembleOutput (lang : Lang) (allImports : List (List String))
    (allEnums : List (String × String)) (bodies : List String)
    (nonExported : List String) : String :=
  let merged := mergeImports allImports lang
  let importsSection :=
    if merged.length > 0 then String.intercalate "\n" merged ++ "\n" else ""
  let enumSection :=
    if allEnums.length > 0 then
      String.intercalate "\n\n" (allEnums.map Prod.snd) ++ "\n\n"
    else ""
  let bodySection := String.intercalate "\n\n" bodies
  let spacingAfterImports :=
    if importsSection ≠ "" ∧ (enumSection ≠ "" ∨ bodySection ≠ "") then "\n" else ""
  importsSection ++ spacingAfterImports ++ enumSection ++ bodySection ++
    unhandledComment lang nonExported

/-- Result, event trace and created-flag of the `try` body of
`convertZodSchema` (everything before the `finally` cleanup). -/
structure BodyOut where
  result : Except String String
  events : List FsEvent
  created : Bool
deriving DecidableEq

/-- The `try` body of `convertZodSchema`: detect exports; reject when none
or more than 10 (before any filesystem work); create the temp directory and
its `node_modules`; reject when the pinned Zod version is absent; symlink
the version; transpile and write the module (when this step throws, the
outer catch returns `{error: err.message}`, a message that may embed the
request-unique file path); run the per-export loop with the delegate
applied to the request-unique `tempFile`, and assemble the final output. -/
def convertBody (env : Env) (tempDir : String) (code : String) (lang : Lang)
    (ver : String) : BodyOut :=
  let cat := detectAllZodSchemas code
  if cat.exported.length = 0 then
    { result := .error noExportsMsg, events := [], created := false }
  else if 10 < cat.exported.length then
    { result := .error (tooManyMsg cat.exported.length), events := [], created := false }
  else
    let ev0 := [FsEvent.mkdirTemp tempDir, FsEvent.mkdirNodeModules]
    if env.zodInstalled = false then
      { result := .error (zodMissingMsg ver (zodVersionPath env.moduleRoot ver))
        events := ev0, created := true }
    else
      match env.writeFails with
      | some f =>
        { result := .error (f (tempFileOf tempDir))
          events := ev0 ++ [FsEvent.symlinkZod], created := true }
      | none =>
        let acc := convertLoop (env.delegate (tempFileOf tempDir)) lang cat.exported
        { result := .ok (assembleOutput lang acc.imports acc.enums acc.bodies cat.nonExported)
          events := ev0 ++ [FsEvent.symlinkZod, FsEvent.writeSchema] ++
            cat.exported.map FsEvent.delegateCall
          created := true }

/-- Observable outcome of one `convertZodSchema` call: the returned value,
the filesystem/delegate event trace, and whether the temp workspace
directory still exists afterwards. -/
structure Outcome where
  result : Except String String
  events : List FsEvent
  tempDirExists : Bool
deriving DecidableEq

/-- `convertZodSchema` from converter.ts: the `try` body followed by the
unconditional `finally` cleanup (`rm(tempDir, {recursive: true, force:
true})` inside its own `try/catch`): the removal is always attempted; when
it succeeds the directory is gone; when it fails the failure is logged and
swallowed and the returned value is unchanged. -/
def convertZodSchema (env : Env) (seed code : String) (lang : Lang)
    (ver : String) : Outcome :=
  let b := convertBody env (tempDirNameOf seed) code lang ver
  { result := b.result
    events := b.events ++ [FsEvent.rmTemp]
    tempDirExists := b.created && !env.rmOk }

/-! ## Reference definitions for corrected claims -/

/-- Modelled from the spec: the enum-block continuation rule as the spec
states it (§4.6) — a subsequent line stays in the block iff it is blank, or
it matches the single literal-value-assignment form at indentation equal to
or deeper than the header's. -/
def specEnumLineContinues (headerIndent : Nat) (line : String) : Bool :=
  (strTrim line = "") ||
    (pyAssignHead (strTrim line) && decide (headerIndent ≤ indentOf line))

/-- Fuelled form of `specDedupExact`; each step strictly shortens the list,
so fuel `l.length` always suffices. -/
def specDedupExactAux : Nat → List String → List String
  | 0, _ => []
  | _ + 1, [] => []
  | n + 1, x :: xs => x :: specDedupExactAux n (xs.filter (fun y => !(y == x)))

/-- Modelled from the spec: deduplication of representation-B import lines
"by exact line text only, preserving order of first occurrence". -/
def specDedupExact (l : List String) : List String := specDedupExactAux l.length l

/-- Fuelled form of `dedupFirstByTrim`. -/
def dedupFirstByTrimAux : Nat → List String → List String
  | 0, _ => []
  | _ + 1, [] => []
  | n + 1, x :: xs =>
    x :: dedupFirstByTrimAux n (xs.filter (fun y => !(strTrim y == strTrim x)))

/-- Deduplication by trimmed line text, first occurrence (with its original
spelling) kept, order preserved: the rule `mergeTypeScriptImports`
actually implements. -/
def dedupFirstByTrim (l : List String) : List String :=
  dedupFirstByTrimAux l.length l

/-- Seen-set formulation of the same deduplication, matching the
accumulation in `tsImportStep`. -/
def dedupSeen (seen : List String) : List String → List String
  | [] => []
  | x :: xs =>
    if memStr (strTrim x) seen then dedupSeen seen xs
    else x :: dedupSeen (seen ++ [strTrim x]) xs

/-- Signature accumulated by the Python extractor over block lines,
starting from `s`. -/
def pySigAux (s : String) (B : List String) : String :=
  B.foldl (fun s l =>
    match pyValueOf (strTrim l) with
    | some v => sigStep s v
    | none => s) s

def pySigOf (B : List String) : String := pySigAux "" B

/-- Signature accumulated by the TypeScript extractor over block lines. -/
def tsSigAux (s : String) (B : List String) : String :=
  B.foldl (fun s l =>
    match tsValueOf (strTrim l) with
    | some v => sigStep s v
    | none => s) s

def tsSigOf (B : List String) : String := tsSigAux "" B

/-! ## Concrete environments and inputs used in witnesses and
counterexamples -/

def delegateUnused : String → String → Except String String :=
  fun _ _ => .error "unused"

/-- Environment where the requested Zod version is not installed. -/
def envNoZod : Env :=
  { delegate := delegateUnused, zodInstalled := false
    moduleRoot := "/app/server", writeFails := none, rmOk := true }

/-- Environment with the version installed and a delegate that ignores the
file path, succeeds on `Good` and throws on everything else. -/
def envDemo : Env :=
  { delegate := fun _ n =>
      if n = "Good" then
        .ok "from pydantic import BaseModel\n\nclass Good(BaseModel):\n    x: str"
      else .error "z.foo is not a function"
    zodInstalled := true, moduleRoot := "/srv/app", writeFails := none
    rmOk := true }

/-- Environment whose delegate fails with a module-import error whose
*cause* embeds the sandbox module path it was given (as Node module
resolution errors do). -/
def envPathDelegate : Env :=
  { delegate := fun file _ =>
      .error ("Failed to import schema module \"" ++ file ++
        "\": Cannot find module '" ++ file ++ "'")
    zodInstalled := true, moduleRoot := "/srv/app", writeFails := none
    rmOk := true }

/-- Environment whose transpile-and-write step throws a Node fs error
embedding the request-unique file path. -/
def envWriteFail : Env :=
  { delegate := delegateUnused, zodInstalled := true, moduleRoot := "/srv/app"
    writeFails := some (fun path =>
      "ENOENT: no such file or directory, open '" ++ path ++ "'")
    rmOk := true }

/-- A source with eleven exported bindings. -/
def code11 : String := String.intercalate "\n" (List.replicate 11 "export const A=z.")

/-- A two-export source whose second binding fails in the delegate. -/
def codeGoodBad : String :=
  "export const Good = z.object()\nexport const Bad = z.bogus()"

/-! # Theorems -/

/-! ## Association-list helper lemmas -/

/-- Explicit option fallback, used to state lookup lemmas. -/
def oElse (a b : Option String) : Option String :=
  match a with
  | some v => some v
  | none => b

theorem oElse_none_right (a : Option String) : oElse a none = a := by
  cases a <;> rfl

theorem oElse_assoc (a b c : Option String) :
    oElse (oElse a b) c = oElse a (oElse b c) := by
  cases a <;> rfl

theorem alookup_append (k : String) (m₁ m₂ : List (String × String)) :
    alookup k (m₁ ++ m₂) = oElse (alookup k m₁) (alookup k m₂) := by
  induction m₁ with
  | nil => rfl
  | cons e m ih =>
    by_cases h : k = e.1 <;> simp [alookup, h, ih, oElse]

theorem alookup_insertAbsent (k : String) (m : List (String × String))
    (e : String × String) :
    alookup k (insertAbsent m e) = oElse (alookup k m) (alookup k [e]) := by
  unfold insertAbsent
  by_cases hs : (alookup e.1 m).isSome
  · rw [if_pos hs]
    by_cases hk : k = e.1
    · subst hk
      obtain ⟨v, hv⟩ := Option.isSome_iff_exists.mp hs
      simp [hv, alookup, oElse]
    · simp [alookup, hk, oElse_none_right]
  · rw [if_neg hs, alookup_append]

theorem alookup_foldl_insertAbsent (entries : List (String × String))
    (m : List (String × String)) (k : String) :
    alookup k (entries.foldl insertAbsent m) =
      oElse (alookup k m) (alookup k entries) := by
  induction entries generalizing m with
  | nil => simp [oElse_none_right, alookup]
  | cons e es ih =>
    rw [List.foldl_cons, ih, alookup_insertAbsent, oElse_assoc]
    congr 1
    by_cases hk : k = e.1 <;> simp [alookup, hk, oElse]

theorem alookup_eq_none_iff (k : String) (m : List (String × String)) :
    alookup k m = none ↔ k ∉ m.map Prod.fst := by
  induction m with
  | nil => simp [alookup]
  | cons e es ih =>
    by_cases h : k = e.1 <;> simp [alookup, h, ih]

theorem foldl_insertAbsent_keys_nodup (entries m : List (String × String))
    (hm : (m.map Prod.fst).Nodup) :
    ((entries.foldl insertAbsent m).map Prod.fst).Nodup := by
  induction entries generalizing m with
  | nil => exact hm
  | cons e es ih =>
    rw [List.foldl_cons]
    apply ih
    unfold insertAbsent
    by_cases hs : (alookup e.1 m).isSome
    · rw [if_pos hs]; exact hm
    · rw [if_neg hs]
      have hnone : alookup e.1 m = none := by
        cases h : alookup e.1 m with
        | none => rfl
        | some v => rw [h] at hs; simp at hs
      have hnotin : e.1 ∉ m.map Prod.fst := (alookup_eq_none_iff _ _).mp hnone
      simp only [List.map_append, List.map_cons, List.map_nil]
      rw [List.nodup_append]
      exact ⟨hm, List.nodup_singleton _, by simpa using hnotin⟩

/-- Folding an inner fold over a list of lists equals folding over the
concatenation. -/
theorem foldl_inner_join {α β : Type} (L : List (List α)) (f : β → α → β)
    (b : β) :
    L.foldl (fun acc l => l.foldl f acc) b = L.flatten.foldl f b := by
  induction L generalizing b with
  | nil => rfl
  | cons l L ih => simp [List.flatten_cons, List.foldl_append, ih]

theorem memStr_append_one (s t : String) (l : List String) :
    memStr s (l ++ [t]) = (memStr s l || s == t) := by
  induction l with
  | nil => by_cases h : s = t <;> simp [memStr, h]
  | cons x xs ih => by_cases h : s = x <;> simp [memStr, h, ih]

/-! ## C9: determinism -/

/-- C9 (counterexample): idempotence fails on the code.  The source passes
the request-unique `tempFile` to `loadZodSchema` and surfaces error
messages: a delegate failure whose *cause* embeds that path reaches the
output through pattern 2 of the error formatter (which strips only the
quoted path, not the cause's interior), and a transpile/write failure
reaches the caller verbatim through the outer catch — so two invocations on
the identical (source, representation, version) triple, differing only in
the request-unique sandbox suffix, return different bytes. -/
theorem claim_C9_counterexample :
    (convertZodSchema envPathDelegate "s1" "export const A = z.string()"
        Lang.pydantic "3").result ≠
      (convertZodSchema envPathDelegate "s2" "export const A = z.string()"
        Lang.pydantic "3").result ∧
    (convertZodSchema envWriteFail "s1" "export const A = z.string()"
        Lang.pydantic "3").result ≠
      (convertZodSchema envWriteFail "s2" "export const A = z.string()"
        Lang.pydantic "3").result := by
  constructor <;> decide

/-- C9 (amended): idempotence holds relative to the collaborators — for any
environment whose transpile/write step succeeds and whose delegate's
observable behaviour does not depend on the sandbox module path it is
given, the returned value (output string or error string) is independent of
the request-unique sandbox seed; the request-unique directory name never
flows into the result through the pipeline itself. -/
theorem claim_C9_amended (env : Env) (code : String) (lang : Lang)
    (ver : String) (seed₁ seed₂ : String)
    (hw : env.writeFails = none)
    (hdel : ∀ file₁ file₂ name, env.delegate file₁ name = env.delegate file₂ name) :
    (convertZodSchema env seed₁ code lang ver).result =
      (convertZodSchema env seed₂ code lang ver).result := by
  have hd : env.delegate (tempFileOf (tempDirNameOf seed₁)) =
      env.delegate (tempFileOf (tempDirNameOf seed₂)) :=
    funext (fun name => hdel _ _ name)
  simp only [convertZodSchema]
  unfold convertBody
  by_cases h0 : (detectAllZodSchemas code).exported.length = 0
  · simp [h0]
  · by_cases h10 : 10 < (detectAllZodSchemas code).exported.length
    · simp [h0, h10]
    · by_cases hz : env.zodInstalled = false
      · simp [h0, h10, hz]
      · simp [h0, h10, hz, hw, hd]

/-- Witness for C9 (amended): a path-independent delegate with a succeeding
write step gives seed-independent results. -/
theorem claim_C9_amended_witness :
    (convertZodSchema envDemo "wa" codeGoodBad Lang.pydantic "3").result =
      (convertZodSchema envDemo "wb" codeGoodBad Lang.pydantic "3").result :=
  claim_C9_amended envDemo codeGoodBad Lang.pydantic "3" "wa" "wb" rfl
    (fun _ _ _ => rfl)

/-! ## C4: unconditional cleanup -/

/-- C4: for every input and outcome, the cleanup is attempted on every exit
path; when the removal succeeds the sandbox workspace directory no longer
exists after `convertZodSchema` returns; and a failure of the removal never
changes the returned value (it is logged and swallowed). -/
theorem claim_C4_cleanup (env : Env) (seed code : String) (lang : Lang)
    (ver : String) :
    (env.rmOk = true →
      (convertZodSchema env seed code lang ver).tempDirExists = false) ∧
    (convertZodSchema { env with rmOk := true } seed code lang ver).result =
      (convertZodSchema { env with rmOk := false } seed code lang ver).result ∧
    FsEvent.rmTemp ∈ (convertZodSchema env seed code lang ver).events := by
  refine ⟨fun h => ?_, rfl, ?_⟩
  · simp [convertZodSchema, h]
  · simp [convertZodSchema]

/-- Witness for C4 at a concrete request. -/
theorem claim_C4_cleanup_witness :
    (convertZodSchema envDemo "w4" codeGoodBad Lang.pydantic "3").tempDirExists
      = false :=
  (claim_C4_cleanup envDemo "w4" codeGoodBad Lang.pydantic "3").1 rfl

/-! ## C2: pre-sandbox short-circuits -/

/-- C2 (counterexample): when the requested Zod version is not installed,
`convertZodSchema` returns the unavailable-dependency error, yet the temp
workspace directory *was* created first (the `existsSync(zodVersionPath)`
check runs after both `mkdir` calls) — contradicting the claim that none of
the three pre-sandbox failures ever creates a workspace. -/
theorem claim_C2_counterexample :
    (convertZodSchema envNoZod "r2" "export const A = z.string()"
        Lang.pydantic "3").result =
      .error (zodMissingMsg "3" (zodVersionPath "/app/server" "3")) ∧
    FsEvent.mkdirTemp (tempDirNameOf "r2") ∈
      (convertZodSchema envNoZod "r2" "export const A = z.string()"
        Lang.pydantic "3").events := by
  constructor
  · rfl
  · decide

/-- C2 (amended): the no-exports and too-many-exports failures short-circuit
before any filesystem work (no workspace is ever created); the
missing-version failure is returned *after* the temp directory and its
`node_modules` are created, but before the version symlink, the module
write, and any delegate call — and the directory is removed by the
unconditional cleanup. -/
theorem claim_C2_amended (env : Env) (seed code : String) (lang : Lang)
    (ver : String) :
    ((detectAllZodSchemas code).exported = [] →
      (convertZodSchema env seed code lang ver).result = .error noExportsMsg ∧
      (convertZodSchema env seed code lang ver).events = [FsEvent.rmTemp]) ∧
    (10 < (detectAllZodSchemas code).exported.length →
      (convertZodSchema env seed code lang ver).result =
        .error (tooManyMsg (detectAllZodSchemas code).exported.length) ∧
      (convertZodSchema env seed code lang ver).events = [FsEvent.rmTemp]) ∧
    ((detectAllZodSchemas code).exported ≠ [] →
      (detectAllZodSchemas code).exported.length ≤ 10 →
      env.zodInstalled = false →
      (convertZodSchema env seed code lang ver).result =
        .error (zodMissingMsg ver (zodVersionPath env.moduleRoot ver)) ∧
      (convertZodSchema env seed code lang ver).events =
        [FsEvent.mkdirTemp (tempDirNameOf seed), FsEvent.mkdirNodeModules,
         FsEvent.rmTemp]) := by
  refine ⟨fun h0 => ?_, fun h10 => ?_, fun hne hle hz => ?_⟩
  · have hlen : (detectAllZodSchemas code).exported.length = 0 := by
      simp [h0]
    constructor <;> simp [convertZodSchema, convertBody, hlen]
  · have hlen : ¬((detectAllZodSchemas code).exported.length = 0) := by omega
    constructor <;> simp [convertZodSchema, convertBody, hlen, h10]
  · have hlen : ¬((detectAllZodSchemas code).exported.length = 0) := by
      simpa [List.length_eq_zero] using hne
    have h10 : ¬(10 < (detectAllZodSchemas code).exported.length) :=
      Nat.not_lt.mpr hle
    constructor <;> simp [convertZodSchema, convertBody, hlen, h10, hz]

/-- Witness for C2 (amended) at concrete requests: an empty source
short-circuits with no filesystem events; a missing version errors after
directory creation only. -/
theorem claim_C2_amended_witness :
    ((convertZodSchema envDemo "w2a" "" Lang.pydantic "3").result =
        .error noExportsMsg ∧
     (convertZodSchema envDemo "w2a" "" Lang.pydantic "3").events =
        [FsEvent.rmTemp]) ∧
    ((convertZodSchema envNoZod "w2b" "export const A = z.string()"
        Lang.typescript "4").result =
        .error (zodMissingMsg "4" (zodVersionPath "/app/server" "4")) ∧
     (convertZodSchema envNoZod "w2b" "export const A = z.string()"
        Lang.typescript "4").events =
        [FsEvent.mkdirTemp (tempDirNameOf "w2b"), FsEvent.mkdirNodeModules,
         FsEvent.rmTemp]) :=
  ⟨(claim_C2_amended envDemo "w2a" "" Lang.pydantic "3").1 (by decide),
   (claim_C2_amended envNoZod "w2b" "export const A = z.string()"
      Lang.typescript "4").2.2 (by decide) (by decide) rfl⟩

/-! ## C8: capacity check before any sandbox work -/

/-- C8: for every source whose detected exported-binding list has more than
10 names, `convertZodSchema` returns the capacity error; no workspace is
created, nothing is written or linked, and the delegate is never invoked
(the only event is the unconditional cleanup attempt). -/
theorem claim_C8_capacity (env : Env) (seed code : String) (lang : Lang)
    (ver : String)
    (h10 : 10 < (detectAllZodSchemas code).exported.length) :
    (convertZodSchema env seed code lang ver).result =
      .error (tooManyMsg (detectAllZodSchemas code).exported.length) ∧
    (convertZodSchema env seed code lang ver).events = [FsEvent.rmTemp] ∧
    ∀ name, FsEvent.delegateCall name ∉
      (convertZodSchema env seed code lang ver).events := by
  have hlen : ¬((detectAllZodSchemas code).exported.length = 0) := by omega
  refine ⟨?_, ?_, ?_⟩
  · simp [convertZodSchema, convertBody, hlen, h10]
  · simp [convertZodSchema, convertBody, hlen, h10]
  · intro name
    simp [convertZodSchema, convertBody, hlen, h10]

/-- Witness for C8 on a source with eleven exported bindings. -/
theorem claim_C8_capacity_witness :
    (convertZodSchema envDemo "w8" code11 Lang.typescript "4").result =
      .error (tooManyMsg (detectAllZodSchemas code11).exported.length) ∧
    (convertZodSchema envDemo "w8" code11 Lang.typescript "4").events =
      [FsEvent.rmTemp] ∧
    FsEvent.delegateCall "A" ∉
      (convertZodSchema envDemo "w8" code11 Lang.typescript "4").events :=
  ⟨(claim_C8_capacity envDemo "w8" code11 Lang.typescript "4" (by decide)).1,
   (claim_C8_capacity envDemo "w8" code11 Lang.typescript "4" (by decide)).2.1,
   (claim_C8_capacity envDemo "w8" code11 Lang.typescript "4" (by decide)).2.2 "A"⟩

/-! ## C1: sanitisation of user-visible failure strings -/

/-- C1 (counterexample): the guarantee fails in two places.  The top-level
missing-version error embeds the absolute dependency install path
(`moduleRoot` + `/node_modules/zod-vN`); and the generic fallback of
`formatConversionError` only strips `/var/folders/...` temp paths and the
`import_zod.` alias, so any other absolute path inside the underlying error
message reaches the output verbatim. -/
theorem claim_C1_counterexample :
    (convertZodSchema envNoZod "r1" "export const A = z.string()"
        Lang.pydantic "3").result =
      .error (zodMissingMsg "3" (zodVersionPath "/app/server" "3")) ∧
    strContainsSub (zodMissingMsg "3" (zodVersionPath "/app/server" "3"))
      "/app/server" = true ∧
    strContainsSub
      (formatConversionError "User" "ENOENT: no such file, open /etc/secret"
        Lang.pydantic)
      "/etc/secret" = true := by
  refine ⟨rfl, ?_, ?_⟩ <;> decide

/-! Universal characterisation of the two global replacements of the
generic fallback (the `/var/folders/<nonspace>/schema.(ts|mjs)` to
`schema file` replacement and the `import_zod.` deletion): at every
position, a leftmost match is replaced/deleted and scanning resumes after
it; a position without a match is copied unchanged; a message without any
match passes through unchanged. -/

theorem dropLit_length (pat : List Char) :
    ∀ (l r : List Char), dropLit pat l = some r →
      pat.length + r.length = l.length := by
  induction pat with
  | nil =>
    intro l r h
    simp only [dropLit, Option.some.injEq] at h
    subst h
    simp
  | cons p ps ih =>
    intro l r h
    cases l with
    | nil => simp [dropLit] at h
    | cons c cs =>
      simp only [dropLit] at h
      by_cases hc : c = p
      · rw [if_pos hc] at h
        have hlen := ih cs r h
        simp only [List.length_cons]
        omega
      · rw [if_neg hc] at h; cases h

theorem leadsWith_eq_isSome (pat : List Char) :
    ∀ l, leadsWith pat l = (dropLit pat l).isSome := by
  induction pat with
  | nil => intro l; rfl
  | cons p ps ih =>
    intro l
    cases l with
    | nil => rfl
    | cons c cs =>
      simp only [leadsWith, dropLit]
      by_cases hc : c = p
      · subst hc; simp [ih]
      · have hc2 : ¬(p = c) := fun hpc => hc hpc.symm
        simp [hc, hc2]

theorem replaceImportZodAux_fuel (n : Nat) :
    ∀ (m : Nat) (l : List Char), l.length ≤ n → l.length ≤ m →
      replaceImportZodAux n l = replaceImportZodAux m l := by
  induction n with
  | zero =>
    intro m l h1 _
    have hl : l = [] := List.length_eq_zero.mp (Nat.le_zero.mp h1)
    subst hl
    cases m <;> rfl
  | succ n ih =>
    intro m l h1 h2
    cases l with
    | nil => cases m <;> rfl
    | cons c cs =>
      cases m with
      | zero => simp at h2
      | succ m =>
        cases h : dropLit "import_zod.".toList (c :: cs) with
        | some r =>
          have hlen := dropLit_length ("import_zod.".toList) (c :: cs) r h
          have hp : ("import_zod.".toList).length = 11 := rfl
          rw [hp, List.length_cons] at hlen
          simp only [List.length_cons] at h1 h2
          simp only [replaceImportZodAux, h]
          exact ih m r (by omega) (by omega)
        | none =>
          simp only [List.length_cons] at h1 h2
          simp only [replaceImportZodAux, h, List.cons.injEq, true_and]
          exact ih m cs (by omega) (by omega)

theorem replaceImportZod_strip (c : Char) (cs r : List Char)
    (h : dropLit "import_zod.".toList (c :: cs) = some r) :
    replaceImportZod (c :: cs) = replaceImportZod r := by
  have hlen := dropLit_length ("import_zod.".toList) (c :: cs) r h
  have hp : ("import_zod.".toList).length = 11 := rfl
  rw [hp, List.length_cons] at hlen
  show replaceImportZodAux (cs.length + 1) (c :: cs) = replaceImportZod r
  simp only [replaceImportZodAux, h]
  exact replaceImportZodAux_fuel cs.length r.length r (by omega) (le_refl _)

theorem replaceImportZod_keep (c : Char) (cs : List Char)
    (h : dropLit "import_zod.".toList (c :: cs) = none) :
    replaceImportZod (c :: cs) = c :: replaceImportZod cs := by
  show replaceImportZodAux (cs.length + 1) (c :: cs) = c :: replaceImportZod cs
  simp only [replaceImportZodAux, h]
  rfl

theorem replaceImportZod_clean :
    ∀ l, occursIn "import_zod.".toList l = false → replaceImportZod l = l := by
  intro l
  induction l with
  | nil => intro _; rfl
  | cons c cs ih =>
    intro h
    simp only [occursIn, Bool.or_eq_false_iff] at h
    obtain ⟨h1, h2⟩ := h
    have hnone : dropLit "import_zod.".toList (c :: cs) = none := by
      have hiff := leadsWith_eq_isSome ("import_zod.".toList) (c :: cs)
      rw [h1] at hiff
      cases hd : dropLit "import_zod.".toList (c :: cs) with
      | none => rfl
      | some r => rw [hd] at hiff; simp at hiff
    rw [replaceImportZod_keep c cs hnone, ih h2]

theorem vfBest_bounds (run : List Char) :
    ∀ (j k : Nat), vfBest run j = some k → 1 ≤ k ∧ k ≤ j := by
  intro j
  induction j with
  | zero => intro k h; simp [vfBest] at h
  | succ j ih =>
    intro k h
    simp only [vfBest] at h
    split at h
    · injection h with h; omega
    · have := ih k h; omega

theorem vfMatchLen_bounds (l : List Char) (k : Nat)
    (h : vfMatchLen l = some k) : 1 ≤ k ∧ k ≤ l.length := by
  unfold vfMatchLen at h
  cases hd : dropLit "/var/folders/".toList l with
  | none => rw [hd] at h; simp at h
  | some r =>
    rw [hd] at h
    simp only at h
    cases hb : vfBest (r.takeWhile fun c => !(isSpaceChar c))
        (r.takeWhile fun c => !(isSpaceChar c)).length with
    | none => rw [hb] at h; simp at h
    | some k0 =>
      rw [hb] at h
      injection h with hk
      have hbb := vfBest_bounds _ _ _ hb
      have hdl := dropLit_length ("/var/folders/".toList) l r hd
      have hp : ("/var/folders/".toList).length = 13 := rfl
      rw [hp] at hdl
      have hrun : (r.takeWhile fun c => !(isSpaceChar c)).length ≤ r.length :=
        (List.takeWhile_sublist _).length_le
      omega

theorem replaceVarFoldersAux_fuel (n : Nat) :
    ∀ (m : Nat) (l : List Char), l.length ≤ n → l.length ≤ m →
      replaceVarFoldersAux n l = replaceVarFoldersAux m l := by
  induction n with
  | zero =>
    intro m l h1 _
    have hl : l = [] := List.length_eq_zero.mp (Nat.le_zero.mp h1)
    subst hl
    cases m <;> rfl
  | succ n ih =>
    intro m l h1 h2
    cases l with
    | nil => cases m <;> rfl
    | cons c cs =>
      cases m with
      | zero => simp at h2
      | succ m =>
        cases h : vfMatchLen (c :: cs) with
        | some k =>
          have hb := vfMatchLen_bounds (c :: cs) k h
          simp only [List.length_cons] at h1 h2 hb
          simp only [replaceVarFoldersAux, h, List.append_cancel_left_eq]
          apply ih
          · rw [List.length_drop, List.length_cons]; omega
          · rw [List.length_drop, List.length_cons]; omega
        | none =>
          simp only [List.length_cons] at h1 h2
          simp only [replaceVarFoldersAux, h, List.cons.injEq, true_and]
          exact ih m cs (by omega) (by omega)

theorem replaceVarFolders_strip (c : Char) (cs : List Char) (k : Nat)
    (h : vfMatchLen (c :: cs) = some k) :
    replaceVarFolders (c :: cs) =
      "schema file".toList ++ replaceVarFolders ((c :: cs).drop k) := by
  have hb := vfMatchLen_bounds (c :: cs) k h
  simp only [List.length_cons] at hb
  show replaceVarFoldersAux (cs.length + 1) (c :: cs) = _
  simp only [replaceVarFoldersAux, h, List.append_cancel_left_eq]
  apply replaceVarFoldersAux_fuel
  · rw [List.length_drop, List.length_cons]; omega
  · exact le_refl _

theorem replaceVarFolders_keep (c : Char) (cs : List Char)
    (h : vfMatchLen (c :: cs) = none) :
    replaceVarFolders (c :: cs) = c :: replaceVarFolders cs := by
  show replaceVarFoldersAux (cs.length + 1) (c :: cs) = c :: replaceVarFolders cs
  simp only [replaceVarFoldersAux, h]
  rfl

theorem replaceVarFolders_clean :
    ∀ l, vfOccurs l = false → replaceVarFolders l = l := by
  intro l
  induction l with
  | nil => intro _; rfl
  | cons c cs ih =>
    intro h
    simp only [vfOccurs, Bool.or_eq_false_iff] at h
    obtain ⟨h1, h2⟩ := h
    have hnone : vfMatchLen (c :: cs) = none := by
      cases hd : vfMatchLen (c :: cs) with
      | none => rfl
      | some k => rw [hd] at h1; simp at h1
    rw [replaceVarFolders_keep c cs hnone, ih h2]

/-- C1 (amended): for every underlying message, the diagnostic begins with
the target representation's comment marker; whenever the
module-import-failure pattern matches (and pattern 1 does not), the emitted
text is exactly the fixed template around the *cause* capture — the quoted
module path capture is discarded; otherwise the generic fallback emits the
fixed template around `cleanGenericError`, whose two replacements satisfy,
at every position of every message: a leftmost `/var/folders/<nonspace>/
schema.(ts|mjs)` match is replaced by `schema file` and a leftmost
`import_zod.` match is deleted (scanning resumes after the match), a
position without a match is copied unchanged, and a message with no match
passes through unchanged — so any other absolute path in the underlying
message survives into the output, and the top-level missing-version error
embeds the absolute dependency path. -/
theorem claim_C1_amended :
    (∀ (name msg : String) (lang : Lang), ∃ rest,
      formatConversionError name msg lang = commentMarker lang ++ rest) ∧
    (∀ (name msg : String) (lang : Lang) (pc : List Char × List Char),
      findNotFunction msg.toList = none →
      findImportFail msg.toList = some pc →
      formatConversionError name msg lang =
        commentMarker lang ++
          (" Failed to load schema '" ++ name ++ "': " ++ String.mk pc.2)) ∧
    (∀ (name msg : String) (lang : Lang),
      findNotFunction msg.toList = none →
      findImportFail msg.toList = none →
      formatConversionError name msg lang =
        commentMarker lang ++
          (" Error in schema '" ++ name ++ "': " ++ cleanGenericError msg)) ∧
    (∀ (c : Char) (cs r : List Char),
      dropLit "import_zod.".toList (c :: cs) = some r →
      replaceImportZod (c :: cs) = replaceImportZod r) ∧
    (∀ (c : Char) (cs : List Char),
      dropLit "import_zod.".toList (c :: cs) = none →
      replaceImportZod (c :: cs) = c :: replaceImportZod cs) ∧
    (∀ l, occursIn "import_zod.".toList l = false → replaceImportZod l = l) ∧
    (∀ (c : Char) (cs : List Char) (k : Nat),
      vfMatchLen (c :: cs) = some k →
      replaceVarFolders (c :: cs) =
        "schema file".toList ++ replaceVarFolders ((c :: cs).drop k)) ∧
    (∀ (c : Char) (cs : List Char),
      vfMatchLen (c :: cs) = none →
      replaceVarFolders (c :: cs) = c :: replaceVarFolders cs) ∧
    (∀ l, vfOccurs l = false → replaceVarFolders l = l) ∧
    cleanGenericError "x import_zod.y /var/folders/ab/schema.mjs z" =
      "x y schema file z" := by
  refine ⟨fun name msg lang => ⟨formatDiagnosticCore name msg, rfl⟩,
    ?_, ?_, replaceImportZod_strip, replaceImportZod_keep,
    replaceImportZod_clean, replaceVarFolders_strip, replaceVarFolders_keep,
    replaceVarFolders_clean, by decide⟩
  · intro name msg lang pc h1 h2
    simp only [String.toList] at h1 h2
    simp [formatConversionError, formatDiagnosticCore, h1, h2]
  · intro name msg lang h1 h2
    simp only [String.toList] at h1 h2
    simp [formatConversionError, formatDiagnosticCore, h1, h2]

/-- Witness for C1 (amended) at concrete messages: a pattern-2 message with
the quoted temp path stripped; a leftmost `import_zod.` deletion; a
match-free message passing through; a `/var/folders` temp-path
replacement. -/
theorem claim_C1_amended_witness :
    formatConversionError "U"
        "Failed to import schema module \"/tmp/x/schema.mjs\": Cannot resolve pkg"
        Lang.typescript =
      commentMarker Lang.typescript ++
        (" Failed to load schema '" ++ "U" ++ "': " ++
          String.mk "Cannot resolve pkg".toList) ∧
    replaceImportZod ("import_zod.z".toList) = replaceImportZod ("z".toList) ∧
    replaceImportZod ("/etc/secret".toList) = "/etc/secret".toList ∧
    replaceVarFolders ("/var/folders/ab/schema.mjs x".toList) =
      "schema file".toList ++
        replaceVarFolders (("/var/folders/ab/schema.mjs x".toList).drop 26) :=
  ⟨claim_C1_amended.2.1 "U"
      "Failed to import schema module \"/tmp/x/schema.mjs\": Cannot resolve pkg"
      Lang.typescript ("/tmp/x/schema.mjs".toList, "Cannot resolve pkg".toList)
      (by decide) (by decide),
   claim_C1_amended.2.2.2.1 'i' ("mport_zod.z".toList) ("z".toList) (by decide),
   claim_C1_amended.2.2.2.2.2.1 ("/etc/secret".toList) (by decide),
   claim_C1_amended.2.2.2.2.2.2.1 '/' ("var/folders/ab/schema.mjs x".toList) 26
      (by decide)⟩

/-! ## Per-export loop characterisation (C3, C5) -/

theorem convertLoop_bodies_aux (d : String → Except String String)
    (lang : Lang) (names : List String) (acc : LoopAcc) :
    (names.foldl (loopStep d lang) acc).bodies =
      acc.bodies ++ names.map (slotBody d lang) := by
  induction names generalizing acc with
  | nil => simp
  | cons n ns ih =>
    rw [List.foldl_cons, ih]
    cases h : d n <;>
      simp [loopStep, slotBody, h]

theorem convertLoop_enums_aux (d : String → Except String String)
    (lang : Lang) (names : List String) (acc : LoopAcc) :
    (names.foldl (loopStep d lang) acc).enums =
      (names.map (slotEnums d lang)).foldl
        (fun m entries => entries.foldl insertAbsent m) acc.enums := by
  induction names generalizing acc with
  | nil => simp
  | cons n ns ih =>
    rw [List.foldl_cons, ih]
    cases h : d n <;> simp [loopStep, slotEnums, h]

theorem convertLoop_imports_aux (d : String → Except String String)
    (lang : Lang) (names : List String) (acc : LoopAcc) :
    (names.foldl (loopStep d lang) acc).imports.length =
      acc.imports.length + names.length := by
  induction names generalizing acc with
  | nil => simp
  | cons n ns ih =>
    rw [List.foldl_cons, ih]
    cases h : d n <;> simp [loopStep, h] <;> omega

/-- C3: per-binding failure isolation.  The per-export loop produces exactly
one body slot per exported binding, in scan order: the extracted body for
bindings the delegate converts, and the formatted comment diagnostic for
bindings on which it throws; a failure never aborts the batch — under the
pre-checks the whole conversion still returns the assembled output built
from those slots. -/
theorem claim_C3_isolation (env : Env) (seed code : String) (lang : Lang)
    (ver : String)
    (hne : (detectAllZodSchemas code).exported ≠ [])
    (hle : (detectAllZodSchemas code).exported.length ≤ 10)
    (hz : env.zodInstalled = true)
    (hw : env.writeFails = none) :
    (convertLoop (env.delegate (tempFileOf (tempDirNameOf seed))) lang
        (detectAllZodSchemas code).exported).bodies =
      (detectAllZodSchemas code).exported.map
        (slotBody (env.delegate (tempFileOf (tempDirNameOf seed))) lang) ∧
    (convertLoop (env.delegate (tempFileOf (tempDirNameOf seed))) lang
        (detectAllZodSchemas code).exported).bodies.length =
      (detectAllZodSchemas code).exported.length ∧
    (∀ name msg,
      env.delegate (tempFileOf (tempDirNameOf seed)) name = .error msg →
      slotBody (env.delegate (tempFileOf (tempDirNameOf seed))) lang name =
        formatConversionError name msg lang) ∧
    (convertZodSchema env seed code lang ver).result =
      .ok (assembleOutput lang
        (convertLoop (env.delegate (tempFileOf (tempDirNameOf seed))) lang
          (detectAllZodSchemas code).exported).imports
        (convertLoop (env.delegate (tempFileOf (tempDirNameOf seed))) lang
          (detectAllZodSchemas code).exported).enums
        (convertLoop (env.delegate (tempFileOf (tempDirNameOf seed))) lang
          (detectAllZodSchemas code).exported).bodies
        (detectAllZodSchemas code).nonExported) := by
  have hbodies :
      (convertLoop (env.delegate (tempFileOf (tempDirNameOf seed))) lang
          (detectAllZodSchemas code).exported).bodies =
        (detectAllZodSchemas code).exported.map
          (slotBody (env.delegate (tempFileOf (tempDirNameOf seed))) lang) := by
    simpa using convertLoop_bodies_aux
      (env.delegate (tempFileOf (tempDirNameOf seed))) lang
      (detectAllZodSchemas code).exported { imports := [], enums := [], bodies := [] }
  refine ⟨hbodies, ?_, ?_, ?_⟩
  · rw [hbodies, List.length_map]
  · intro name msg h
    simp [slotBody, h]
  · have hlen : ¬((detectAllZodSchemas code).exported.length = 0) := by
      simpa [List.length_eq_zero] using hne
    have h10 : ¬(10 < (detectAllZodSchemas code).exported.length) :=
      Nat.not_lt.mpr hle
    simp [convertZodSchema, convertBody, hlen, h10, hz, hw]

/-- Witness for C3 on a two-binding request whose second binding fails. -/
theorem claim_C3_isolation_witness :
    (convertLoop (envDemo.delegate (tempFileOf (tempDirNameOf "w3")))
        Lang.pydantic (detectAllZodSchemas codeGoodBad).exported).bodies =
      (detectAllZodSchemas codeGoodBad).exported.map
        (slotBody (envDemo.delegate (tempFileOf (tempDirNameOf "w3")))
          Lang.pydantic) ∧
    (convertZodSchema envDemo "w3" codeGoodBad Lang.pydantic "3").result =
      .ok (assembleOutput Lang.pydantic
        (convertLoop (envDemo.delegate (tempFileOf (tempDirNameOf "w3")))
          Lang.pydantic (detectAllZodSchemas codeGoodBad).exported).imports
        (convertLoop (envDemo.delegate (tempFileOf (tempDirNameOf "w3")))
          Lang.pydantic (detectAllZodSchemas codeGoodBad).exported).enums
        (convertLoop (envDemo.delegate (tempFileOf (tempDirNameOf "w3")))
          Lang.pydantic (detectAllZodSchemas codeGoodBad).exported).bodies
        (detectAllZodSchemas codeGoodBad).nonExported) :=
  ⟨(claim_C3_isolation envDemo "w3" codeGoodBad Lang.pydantic "3"
      (by decide) (by decide) rfl rfl).1,
   (claim_C3_isolation envDemo "w3" codeGoodBad Lang.pydantic "3"
      (by decide) (by decide) rfl rfl).2.2.2⟩

/-- C5: the cross-binding enum registry.  The registry the loop accumulates
is exactly the fold of the per-binding enum lists (in scan order) through
insert-if-absent; it never holds two entries with the same value-signature
key; and the definition recorded for a signature is the first one produced
in scan order — so two bindings producing enum blocks with identical
ordered literal-value signatures (names play no role in the key) yield
exactly one definition, the first one. -/
theorem claim_C5_enum_dedup (d : String → Except String String)
    (lang : Lang) (names : List String) :
    (convertLoop d lang names).enums =
      mergeEnumLists (names.map (slotEnums d lang)) ∧
    (((convertLoop d lang names).enums).map Prod.fst).Nodup ∧
    ∀ sig, alookup sig (convertLoop d lang names).enums =
      alookup sig (names.map (slotEnums d lang)).flatten := by
  have hmerge : (convertLoop d lang names).enums =
      mergeEnumLists (names.map (slotEnums d lang)) := by
    simpa [mergeEnumLists] using convertLoop_enums_aux d lang names
      { imports := [], enums := [], bodies := [] }
  have hjoin : mergeEnumLists (names.map (slotEnums d lang)) =
      (names.map (slotEnums d lang)).flatten.foldl insertAbsent [] := by
    simpa [mergeEnumLists] using foldl_inner_join (names.map (slotEnums d lang))
      insertAbsent ([] : List (String × String))
  refine ⟨hmerge, ?_, ?_⟩
  · rw [hmerge, hjoin]
    exact foldl_insertAbsent_keys_nodup _ [] (by simp)
  · intro sig
    rw [hmerge, hjoin, alookup_foldl_insertAbsent]
    simp [alookup, oElse]

/-! ## C7: representation-B import merge -/

theorem dedupFirstByTrimAux_fuel (n : Nat) :
    ∀ (m : Nat) (xs : List String), xs.length ≤ n → xs.length ≤ m →
      dedupFirstByTrimAux n xs = dedupFirstByTrimAux m xs := by
  induction n with
  | zero =>
    intro m xs h1 _
    have hx : xs = [] := List.length_eq_zero.mp (Nat.le_zero.mp h1)
    subst hx
    cases m <;> rfl
  | succ n ih =>
    intro m xs h1 h2
    cases xs with
    | nil => cases m <;> rfl
    | cons x xs =>
      cases m with
      | zero => simp at h2
      | succ m =>
        simp only [dedupFirstByTrimAux, List.cons.injEq, true_and]
        have hxs : xs.length ≤ n := by simpa using h1
        have hxs' : xs.length ≤ m := by simpa using h2
        exact ih m _ (le_trans (List.length_filter_le _ _) hxs)
          (le_trans (List.length_filter_le _ _) hxs')

theorem dedupSeen_eq_aux (n : Nat) :
    ∀ (xs : List String) (seen : List String), xs.length ≤ n →
      dedupSeen seen xs =
        dedupFirstByTrimAux n (xs.filter (fun y => !(memStr (strTrim y) seen))) := by
  induction n with
  | zero =>
    intro xs seen h1
    have hx : xs = [] := List.length_eq_zero.mp (Nat.le_zero.mp h1)
    subst hx
    rfl
  | succ n ih =>
    intro xs seen h1
    cases xs with
    | nil => rfl
    | cons x xs =>
      have hxs : xs.length ≤ n := by simpa using h1
      cases hm : memStr (strTrim x) seen with
      | true =>
        have hstep : dedupSeen seen (x :: xs) = dedupSeen seen xs := by
          simp [dedupSeen, hm]
        rw [hstep, List.filter_cons_of_neg (by simp [hm]), ih xs seen hxs]
        exact dedupFirstByTrimAux_fuel n (n + 1) _
          (le_trans (List.length_filter_le _ _) hxs)
          (le_trans (List.length_filter_le _ _) (le_trans hxs (Nat.le_succ n)))
      | false =>
        have hstep : dedupSeen seen (x :: xs) =
            x :: dedupSeen (seen ++ [strTrim x]) xs := by
          simp [dedupSeen, hm]
        rw [hstep, List.filter_cons_of_pos (by simp [hm])]
        simp only [dedupFirstByTrimAux, List.cons.injEq, true_and]
        rw [ih xs (seen ++ [strTrim x]) hxs]
        congr 1
        rw [List.filter_filter]
        apply List.filter_congr
        intro y _
        rw [memStr_append_one]
        cases hy1 : memStr (strTrim y) seen <;>
          cases hy2 : strTrim y == strTrim x <;> simp [hy1, hy2]

theorem tsImportStep_fold (xs : List String) :
    ∀ (seen acc : List String),
      (xs.foldl tsImportStep (seen, acc)).2 = acc ++ dedupSeen seen xs := by
  induction xs with
  | nil => intro seen acc; simp [dedupSeen]
  | cons x xs ih =>
    intro seen acc
    cases hm : memStr (strTrim x) seen with
    | true => simp [tsImportStep, hm, dedupSeen, ih]
    | false => simp [tsImportStep, hm, dedupSeen, ih]

theorem dedupSeen_trim_nodup (xs : List String) :
    ∀ seen : List String,
      ((dedupSeen seen xs).map strTrim).Nodup ∧
      ∀ v ∈ (dedupSeen seen xs).map strTrim, memStr v seen = false := by
  induction xs with
  | nil => intro seen; simp [dedupSeen]
  | cons x xs ih =>
    intro seen
    cases hm : memStr (strTrim x) seen with
    | true => simpa [dedupSeen, hm] using ih seen
    | false =>
      obtain ⟨hnodup, hout⟩ := ih (seen ++ [strTrim x])
      have hxnotin :
          strTrim x ∉ (dedupSeen (seen ++ [strTrim x]) xs).map strTrim := by
        intro hmem
        have hcontr := hout _ hmem
        rw [memStr_append_one] at hcontr
        simp at hcontr
      have hstep : dedupSeen seen (x :: xs) =
          x :: dedupSeen (seen ++ [strTrim x]) xs := by
        simp [dedupSeen, hm]
      rw [hstep]
      refine ⟨?_, ?_⟩
      · simp only [List.map_cons, List.nodup_cons]
        exact ⟨hxnotin, hnodup⟩
      · intro v hv
        simp only [List.map_cons, List.mem_cons] at hv
        rcases hv with hv | hv
        · rw [hv]; exact hm
        · have hv2 := hout v hv
          rw [memStr_append_one] at hv2
          exact (Bool.or_eq_false_iff.mp hv2).1

/-- C7 (counterexample): `mergeTypeScriptImports` deduplicates on the
*trimmed* line text, not the exact line text: two import lines differing
only in trailing whitespace collapse to one, whereas the spec's
exact-line-text rule keeps both. -/
theorem claim_C7_counterexample :
    mergeTypeScriptImports [["import x", "import x "]] = ["import x"] ∧
    specDedupExact ["import x", "import x "] = ["import x", "import x "] ∧
    mergeTypeScriptImports [["import x", "import x "]] ≠
      specDedupExact ["import x", "import x "] := by
  refine ⟨?_, ?_, ?_⟩ <;> decide

/-- C7 (amended): the representation-B merge deduplicates by the
whitespace-trimmed line text, keeping the first occurrence's original line,
in order of first occurrence across all bindings' import blocks, with no
item-level splitting; in particular no two emitted lines share the same
trimmed text. -/
theorem claim_C7_amended (importArrays : List (List String)) :
    mergeTypeScriptImports importArrays =
      dedupFirstByTrim importArrays.flatten ∧
    ((mergeTypeScriptImports importArrays).map strTrim).Nodup := by
  have hflat : mergeTypeScriptImports importArrays =
      (importArrays.flatten.foldl tsImportStep ([], [])).2 := by
    unfold mergeTypeScriptImports
    rw [foldl_inner_join]
  have hseen : (importArrays.flatten.foldl tsImportStep ([], [])).2 =
      dedupSeen [] importArrays.flatten := by
    simpa using tsImportStep_fold importArrays.flatten [] []
  have hdedup : dedupSeen [] importArrays.flatten =
      dedupFirstByTrim importArrays.flatten := by
    rw [dedupSeen_eq_aux importArrays.flatten.length importArrays.flatten []
      (le_refl _)]
    unfold dedupFirstByTrim
    have hid : importArrays.flatten.filter
        (fun y => !(memStr (strTrim y) [])) = importArrays.flatten :=
      List.filter_eq_self.mpr (fun a _ => by simp [memStr])
    rw [hid]
  constructor
  · rw [hflat, hseen, hdedup]
  · rw [hflat, hseen]
    exact (dedupSeen_trim_nodup importArrays.flatten []).1

/-! ## Enum-block boundary lemmas (C6, C10) -/

theorem pyContinues_false_iff (i : Nat) (l : String) :
    pyContinues i l = false ↔
      (strTrim l ≠ "" ∧ indentOf l ≤ i ∧ pyAssignHead (strTrim l) = false) := by
  unfold pyContinues
  cases hb : pyAssignHead (strTrim l) <;>
    by_cases h1 : strTrim l = "" <;>
      simp [h1, hb, Nat.not_lt]

/-- Inside an open Python block, a non-header line that satisfies the
code's continuation condition is appended to the block. -/
theorem pyStep_inblock_continue (blk : PyBlock) (body0 : List String)
    (m : List (String × String)) (l : String)
    (hhd : isPyEnumHeader (strTrim l) = false)
    (hcont : pyContinues blk.indent l = true) :
    pyStep ⟨some blk, body0, m⟩ l =
      ⟨some ⟨blk.lines ++ [l], blk.indent,
        match pyValueOf (strTrim l) with
        | some v => sigStep blk.sig v
        | none => blk.sig⟩, body0, m⟩ := by
  have hnc : ¬(strTrim l ≠ "" ∧ indentOf l ≤ blk.indent ∧
      pyAssignHead (strTrim l) = false) := by
    intro hc
    rw [(pyContinues_false_iff blk.indent l).mpr hc] at hcont
    simp at hcont
  simp [pyStep, hhd, hnc]

/-- Running the Python scan over a run of in-block lines extends the open
block and accumulates the signature, touching neither body nor registry. -/
theorem pyRun_inblock (B : List String) :
    ∀ (rest acc : List String) (i : Nat) (s0 : String)
      (body0 : List String) (m : List (String × String)),
      (∀ l ∈ B, isPyEnumHeader (strTrim l) = false ∧ pyContinues i l = true) →
      (B ++ rest).foldl pyStep ⟨some ⟨acc, i, s0⟩, body0, m⟩ =
        rest.foldl pyStep ⟨some ⟨acc ++ B, i, pySigAux s0 B⟩, body0, m⟩ := by
  induction B with
  | nil => intro rest acc i s0 body0 m _; simp [pySigAux]
  | cons l B ih =>
    intro rest acc i s0 body0 m hB
    obtain ⟨hhd, hcont⟩ := hB l (List.mem_cons_self _ _)
    have hB' := fun x hx => hB x (List.mem_cons_of_mem _ hx)
    rw [List.cons_append, List.foldl_cons,
        pyStep_inblock_continue ⟨acc, i, s0⟩ body0 m l hhd hcont,
        ih rest (acc ++ [l]) i _ body0 m hB']
    simp [pySigAux, List.append_assoc]

/-- Master boundary lemma for the Python extractor: a header line followed
by a maximal run `B` of in-block lines, followed either by the end of input
or by a line that is a new header or breaks the continuation condition,
contributes exactly the block `header :: B` (flushed under its accumulated
value signature) to the registry, and nothing to the body; the breaking
line itself is processed from a clean state (so a non-header breaking line
belongs to the remaining body). -/
theorem pyBlock_master (h : String) (B rest : List String)
    (body0 : List String) (m : List (String × String))
    (hh : isPyEnumHeader (strTrim h) = true)
    (hB : ∀ l ∈ B, isPyEnumHeader (strTrim l) = false ∧
      pyContinues (indentOf h) l = true)
    (hrest : rest = [] ∨ ∃ t rest2, rest = t :: rest2 ∧
      (isPyEnumHeader (strTrim t) = true ∨ pyContinues (indentOf h) t = false)) :
    pyFinish ((h :: (B ++ rest)).foldl pyStep ⟨none, body0, m⟩) =
      pyFinish (rest.foldl pyStep
        ⟨none, body0, flushSig m (pySigOf B) (h :: B)⟩) := by
  have hstep1 : pyStep ⟨none, body0, m⟩ h =
      ⟨some ⟨[h], indentOf h, ""⟩, body0, m⟩ := by
    simp [pyStep, hh]
  rw [List.foldl_cons, hstep1,
      pyRun_inblock B rest [h] (indentOf h) "" body0 m hB]
  rcases hrest with hnil | ⟨t, rest2, hr, hcase⟩
  · subst hnil
    simp [pyFinish, pySigOf]
  · subst hr
    rw [List.foldl_cons, List.foldl_cons]
    have hstates : pyStep ⟨some ⟨[h] ++ B, indentOf h, pySigAux "" B⟩, body0, m⟩ t =
        pyStep ⟨none, body0, flushSig m (pySigOf B) (h :: B)⟩ t := by
      cases hht : isPyEnumHeader (strTrim t) with
      | true => simp [pyStep, hht, pySigOf]
      | false =>
        have hcf : pyContinues (indentOf h) t = false := by
          rcases hcase with h1 | h2
          · rw [hht] at h1; cases h1
          · exact h2
        have hc := (pyContinues_false_iff (indentOf h) t).mp hcf
        simp [pyStep, hht, hc.1, hc.2.1, hc.2.2, pySigOf]
    rw [hstates]

/-- Inside an open TypeScript block, a non-header line other than the `}`
closer is appended to the block. -/
theorem tsStep_inblock (blk : TsBlock) (body0 : List String)
    (m : List (String × String)) (l : String)
    (hhd : isTsEnumHeader (strTrim l) = false)
    (hcl : strTrim l ≠ "\x7d") :
    tsStep ⟨some blk, body0, m⟩ l =
      ⟨some ⟨blk.lines ++ [l],
        match tsValueOf (strTrim l) with
        | some v => sigStep blk.sig v
        | none => blk.sig⟩, body0, m⟩ := by
  simp [tsStep, hhd, hcl]

theorem tsRun_inblock (B : List String) :
    ∀ (rest acc : List String) (s0 : String)
      (body0 : List String) (m : List (String × String)),
      (∀ l ∈ B, isTsEnumHeader (strTrim l) = false ∧ strTrim l ≠ "\x7d") →
      (B ++ rest).foldl tsStep ⟨some ⟨acc, s0⟩, body0, m⟩ =
        rest.foldl tsStep ⟨some ⟨acc ++ B, tsSigAux s0 B⟩, body0, m⟩ := by
  induction B with
  | nil => intro rest acc s0 body0 m _; simp [tsSigAux]
  | cons l B ih =>
    intro rest acc s0 body0 m hB
    obtain ⟨hhd, hcl⟩ := hB l (List.mem_cons_self _ _)
    have hB' := fun x hx => hB x (List.mem_cons_of_mem _ hx)
    rw [List.cons_append, List.foldl_cons,
        tsStep_inblock ⟨acc, s0⟩ body0 m l hhd hcl,
        ih rest (acc ++ [l]) _ body0 m hB']
    simp [tsSigAux, List.append_assoc]

/-- Master boundary lemma for the TypeScript extractor, closing case: a
header, a run of non-`}` lines, then a `}` line contribute the block
including the closer to the registry (under the signature accumulated from
the run), and nothing to the body. -/
theorem tsBlock_close (h : String) (B rest2 : List String)
    (body0 : List String) (m : List (String × String)) (c : String)
    (hh : isTsEnumHeader (strTrim h) = true)
    (hB : ∀ l ∈ B, isTsEnumHeader (strTrim l) = false ∧ strTrim l ≠ "\x7d")
    (hc : strTrim c = "\x7d") :
    tsFinish ((h :: (B ++ (c :: rest2))).foldl tsStep ⟨none, body0, m⟩) =
      tsFinish (rest2.foldl tsStep
        ⟨none, body0, flushSig m (tsSigOf B) ((h :: B) ++ [c])⟩) := by
  have hch : isTsEnumHeader (strTrim c) = false := by rw [hc]; decide
  have hstep1 : tsStep ⟨none, body0, m⟩ h =
      ⟨some ⟨[h], ""⟩, body0, m⟩ := by
    simp [tsStep, hh]
  rw [List.foldl_cons, hstep1,
      tsRun_inblock B (c :: rest2) [h] "" body0 m hB, List.foldl_cons]
  have hclose : tsStep ⟨some ⟨[h] ++ B, tsSigAux "" B⟩, body0, m⟩ c =
      ⟨none, body0, flushSig m (tsSigOf B) ((h :: B) ++ [c])⟩ := by
    have hch2 : isTsEnumHeader "\x7d" = false := by decide
    simp [tsStep, hc, hch2, tsSigOf]
  rw [hclose]

/-- Master boundary lemma for the TypeScript extractor, end-of-input case:
an unterminated block is flushed (under its accumulated signature) by the
final flush, leaving the body untouched. -/
theorem tsBlock_eof (h : String) (B : List String)
    (body0 : List String) (m : List (String × String))
    (hh : isTsEnumHeader (strTrim h) = true)
    (hB : ∀ l ∈ B, isTsEnumHeader (strTrim l) = false ∧ strTrim l ≠ "\x7d") :
    tsFinish ((h :: B).foldl tsStep ⟨none, body0, m⟩) =
      (flushSig m (tsSigOf B) (h :: B), body0) := by
  have hstep1 : tsStep ⟨none, body0, m⟩ h =
      ⟨some ⟨[h], ""⟩, body0, m⟩ := by
    simp [tsStep, hh]
  have hrun := tsRun_inblock B [] [h] "" body0 m hB
  rw [List.append_nil] at hrun
  rw [List.foldl_cons, hstep1, hrun]
  simp [tsFinish, tsSigOf]

theorem pySigAux_none (B : List String) :
    ∀ s : String, (∀ l ∈ B, pyValueOf (strTrim l) = none) → pySigAux s B = s := by
  induction B with
  | nil => intro s _; rfl
  | cons l B ih =>
    intro s hB
    have hl := hB l (List.mem_cons_self _ _)
    have hB' := fun x hx => hB x (List.mem_cons_of_mem _ hx)
    simp only [pySigAux, List.foldl_cons, hl]
    exact ih s hB'

theorem tsSigAux_none (B : List String) :
    ∀ s : String, (∀ l ∈ B, tsValueOf (strTrim l) = none) → tsSigAux s B = s := by
  induction B with
  | nil => intro s _; rfl
  | cons l B ih =>
    intro s hB
    have hl := hB l (List.mem_cons_self _ _)
    have hB' := fun x hx => hB x (List.mem_cons_of_mem _ hx)
    simp only [tsSigAux, List.foldl_cons, hl]
    exact ih s hB'

/-! ## C6: enum-block extent -/

/-- C6 (counterexample): the claimed boundary rule fails on the Python
extractor.  The line `    pass` is neither blank nor a literal-value
assignment, so under the claimed rule it would end the block and belong to
the remaining body; the code instead keeps any more-deeply-indented line
inside the block: the emitted definition contains `    pass` and the body
is empty. -/
theorem claim_C6_counterexample :
    specEnumLineContinues 0 "    pass" = false ∧
    extractPythonEnumsLines
        ["class AEnum(str, Enum):", "    pass", "    A = \"a\""] =
      ([("a", "class AEnum(str, Enum):\n    pass\n    A = \"a\"")], []) := by
  constructor <;> decide

/-- C6 (amended): the boundary rule the code implements.  Python extractor:
a block starts at a header line and continues while subsequent lines are
blank, or strictly deeper indented than the header, or match the
`\w+\s*=\s*"` assignment form at *any* indentation; it ends at the first
non-blank line at indentation ≤ the header's that is neither an assignment
form nor a new header, and that line belongs to the remaining body (the
whole block, flushed under its value signature, goes to the registry).
TypeScript extractor: a block continues until the first line whose trimmed
text is `}`; that closer is included in the block, not the body; an
unterminated block is flushed at end of input. -/
theorem claim_C6_amended :
    (∀ (h : String) (B rest body0 : List String) (m : List (String × String)),
      isPyEnumHeader (strTrim h) = true →
      (∀ l ∈ B, isPyEnumHeader (strTrim l) = false ∧
        pyContinues (indentOf h) l = true) →
      (rest = [] ∨ ∃ t rest2, rest = t :: rest2 ∧
        (isPyEnumHeader (strTrim t) = true ∨
          pyContinues (indentOf h) t = false)) →
      pyFinish ((h :: (B ++ rest)).foldl pyStep ⟨none, body0, m⟩) =
        pyFinish (rest.foldl pyStep
          ⟨none, body0, flushSig m (pySigOf B) (h :: B)⟩)) ∧
    (∀ (h : String) (B rest2 body0 : List String)
        (m : List (String × String)) (c : String),
      isTsEnumHeader (strTrim h) = true →
      (∀ l ∈ B, isTsEnumHeader (strTrim l) = false ∧ strTrim l ≠ "\x7d") →
      strTrim c = "\x7d" →
      tsFinish ((h :: (B ++ (c :: rest2))).foldl tsStep ⟨none, body0, m⟩) =
        tsFinish (rest2.foldl tsStep
          ⟨none, body0, flushSig m (tsSigOf B) ((h :: B) ++ [c])⟩)) ∧
    (∀ (h : String) (B body0 : List String) (m : List (String × String)),
      isTsEnumHeader (strTrim h) = true →
      (∀ l ∈ B, isTsEnumHeader (strTrim l) = false ∧ strTrim l ≠ "\x7d") →
      tsFinish ((h :: B).foldl tsStep ⟨none, body0, m⟩) =
        (flushSig m (tsSigOf B) (h :: B), body0)) :=
  ⟨fun h B rest body0 m hh hB hrest => pyBlock_master h B rest body0 m hh hB hrest,
   fun h B rest2 body0 m c hh hB hc => tsBlock_close h B rest2 body0 m c hh hB hc,
   fun h B body0 m hh hB => tsBlock_eof h B body0 m hh hB⟩

/-- Witness for C6 (amended) at concrete blocks for both extractors. -/
theorem claim_C6_amended_witness :
    (pyFinish ((["class BEnum(str, Enum):"] ++
        (["    A = \"x\""] ++ ["done"])).foldl pyStep ⟨none, ["pre"], []⟩) =
      pyFinish ((["done"]).foldl pyStep
        ⟨none, ["pre"],
         flushSig [] (pySigOf ["    A = \"x\""])
           ("class BEnum(str, Enum):" :: ["    A = \"x\""])⟩)) ∧
    (tsFinish ((["enum Color \x7b"] ++
        (["  Red = \"red\","] ++ ("\x7d" :: ["after"]))).foldl tsStep
          ⟨none, [], []⟩) =
      tsFinish ((["after"]).foldl tsStep
        ⟨none, [],
         flushSig [] (tsSigOf ["  Red = \"red\","])
           (("enum Color \x7b" :: ["  Red = \"red\","]) ++ ["\x7d"])⟩)) :=
  ⟨claim_C6_amended.1 "class BEnum(str, Enum):" ["    A = \"x\""] ["done"]
      ["pre"] [] (by decide) (by decide)
      (Or.inr ⟨"done", [], rfl, Or.inr (by decide)⟩),
   claim_C6_amended.2.1 "enum Color \x7b" ["  Red = \"red\","] ["after"] [] []
      "\x7d" (by decide) (by decide) (by decide)⟩

/-! ## C10: empty-signature blocks are silently deleted -/

/-- C10: an enum block none of whose lines is a literal string-value
assignment accumulates the empty signature, so both extractors drop it
entirely: its lines are removed from the body and nothing is added to the
registry — the extraction of the input with the block is identical to the
extraction without it. -/
theorem claim_C10_empty_sig :
    (∀ (h : String) (B rest : List String),
      isPyEnumHeader (strTrim h) = true →
      (∀ l ∈ B, isPyEnumHeader (strTrim l) = false ∧
        pyContinues (indentOf h) l = true ∧ pyValueOf (strTrim l) = none) →
      (rest = [] ∨ ∃ t rest2, rest = t :: rest2 ∧
        (isPyEnumHeader (strTrim t) = true ∨
          pyContinues (indentOf h) t = false)) →
      extractPythonEnumsLines (h :: (B ++ rest)) =
        extractPythonEnumsLines rest) ∧
    (∀ (h : String) (B rest2 : List String) (c : String),
      isTsEnumHeader (strTrim h) = true →
      (∀ l ∈ B, isTsEnumHeader (strTrim l) = false ∧ strTrim l ≠ "\x7d" ∧
        tsValueOf (strTrim l) = none) →
      strTrim c = "\x7d" →
      extractTypeScriptEnumsLines (h :: (B ++ (c :: rest2))) =
        extractTypeScriptEnumsLines rest2) := by
  constructor
  · intro h B rest hh hB hrest
    have hB' : ∀ l ∈ B, isPyEnumHeader (strTrim l) = false ∧
        pyContinues (indentOf h) l = true :=
      fun l hl => ⟨(hB l hl).1, (hB l hl).2.1⟩
    have hsig : pySigOf B = "" :=
      pySigAux_none B "" (fun l hl => (hB l hl).2.2)
    have hflush : flushSig [] (pySigOf B) (h :: B) = [] := by
      rw [hsig]; rfl
    unfold extractPythonEnumsLines
    rw [pyBlock_master h B rest [] [] hh hB' hrest, hflush]
  · intro h B rest2 c hh hB hc
    have hB' : ∀ l ∈ B, isTsEnumHeader (strTrim l) = false ∧
        strTrim l ≠ "\x7d" :=
      fun l hl => ⟨(hB l hl).1, (hB l hl).2.1⟩
    have hsig : tsSigOf B = "" :=
      tsSigAux_none B "" (fun l hl => (hB l hl).2.2)
    have hflush : flushSig [] (tsSigOf B) ((h :: B) ++ [c]) = [] := by
      rw [hsig]; rfl
    unfold extractTypeScriptEnumsLines
    rw [tsBlock_close h B rest2 [] [] c hh hB' hc, hflush]

/-- Witness for C10 at concrete empty-signature blocks. -/
theorem claim_C10_empty_sig_witness :
    extractPythonEnumsLines
        ("class AEnum(str, Enum):" :: (["    pass"] ++ ["x = 1"])) =
      extractPythonEnumsLines ["x = 1"] ∧
    extractTypeScriptEnumsLines
        ("enum Color \x7b" :: (["  Red,"] ++ ("\x7d" :: ["tail"]))) =
      extractTypeScriptEnumsLines ["tail"] :=
  ⟨claim_C10_empty_sig.1 "class AEnum(str, Enum):" ["    pass"] ["x = 1"]
      (by decide) (by decide)
      (Or.inr ⟨"x = 1", [], rfl, Or.inr (by decide)⟩),
   claim_C10_empty_sig.2 "enum Color \x7b" ["  Red,"] ["tail"] "\x7d"
      (by decide) (by decide) (by decide)⟩

end SBPG
